import Mathlib

/-!
Verification of the StudyTracker core (shallow embedding of `src/app.jsx`).

The embedding models the hierarchical progress data model, the progress
aggregator `calculateProgress`, the mutation closures (`addChapter`,
`toggleQuestion`, `genQuestions`, `deleteChapter`, `addGenericSection`,
`addSubExercise`) and the sync handlers (`saveData`, the snapshot listener).

Modelling conventions:
* JavaScript objects keyed by generated ids become association lists
  `List (String × _)` in insertion order; `Object.values` is `map Prod.snd`;
  the spread-update `{...m, [k]: v}` is `setKey` (replace in place when the
  key is present, append otherwise) and indexing `m[k]` is `getKey`.
* Optional JS fields (a section's `questions` / `subExercises`, which some
  constructors omit) are `Option`s; `none` is `undefined`.
* A JS callback that can throw inside `Array.prototype.map` is modelled by
  `mapOrThrow`, which aborts the whole map with `none` (the thrown
  exception); total operations keep plain `List.map`.
* Fresh `crypto.randomUUID()` ids are passed in as explicit arguments
  (or an explicit supply `Nat → String`), making the operations pure.
* JS numbers are modelled exactly: the counts are naturals, and
  `Math.round((completed / total) * 100)` (half-up rounding of a
  non-negative quotient) is the natural-division expression
  `(200 * completed + total) / (2 * total)`, related to Mathlib's `round`
  over `ℚ` in the theorem for claim C1.
-/

namespace StudyTracker

/-- A question leaf: `{id, completed}` (src/app.jsx, created in
`genQuestions`/`addSubExercise`). -/
structure Question where
  id : String
  completed : Bool
deriving DecidableEq, Repr

/-- A sub-exercise: `{id, name, questions}` (src/app.jsx `addSubExercise`). -/
structure SubExercise where
  id : String
  name : String
  questions : List Question
deriving DecidableEq, Repr

/-- A section of a chapter.  All fields are optional because the source
constructors differ in which fields they put on the object: `addChapter`
always writes `id`, `label`, `type` and `questions` and adds `subExercises`
only for the `EXERCISE` kind; `addGenericSection` never writes
`subExercises`; `genQuestions` on a missing section id builds an object
carrying only `questions`. -/
structure Sect where
  id : Option String := none
  label : Option String := none
  type : Option String := none
  questions : Option (List Question) := none
  subExercises : Option (List (String × SubExercise)) := none
deriving DecidableEq, Repr

/-- A chapter: `{id, name, progress, sections}` (src/app.jsx `addChapter`). -/
structure Chapter where
  id : String
  name : String
  progress : Nat
  sections : List (String × Sect)
deriving DecidableEq, Repr

/-- A subject: `{id, name, chapters}` (src/app.jsx `addSubject`). -/
structure Subject where
  id : String
  name : String
  chapters : List Chapter
deriving DecidableEq, Repr

/-- The full tree (the `subjects` state / the persisted `list` field). -/
abbrev Tree := List Subject

/-- JS object indexing `m[k]`: the first entry with the key, if any. -/
def getKey {α : Type} (m : List (String × α)) (k : String) : Option α :=
  (m.find? fun p => decide (p.1 = k)).map (·.2)

/-- Whether the JS object has the key. -/
def hasKey {α : Type} (m : List (String × α)) (k : String) : Bool :=
  m.any fun p => decide (p.1 = k)

/-- JS spread-update `{...m, [k]: v}`: replace the entry in place when the
key is present (JS keeps the key's insertion position), append otherwise. -/
def setKey {α : Type} (m : List (String × α)) (k : String) (v : α) :
    List (String × α) :=
  if hasKey m k then m.map fun p => if p.1 = k then (k, v) else p
  else m ++ [(k, v)]

/-- `Array.prototype.map` with a callback that may throw: the first throwing
element aborts the whole map (`none`), no partial list is produced. -/
def mapOrThrow {α β : Type} (g : α → Option β) : List α → Option (List β)
  | [] => some []
  | a :: as => do
    let b ← g a
    let bs ← mapOrThrow g as
    pure (b :: bs)

/-- Per-section contribution `(totalQs, completedQs)` of the `forEach` body of
`calculateProgress` (src/app.jsx lines 51-61): an `exercise`-typed section
with a (truthy) `subExercises` map contributes the flattened sub-exercise
question lists; any other section contributes its own `questions` list
(`section.questions?.length || 0` makes an absent list count 0). -/
def sectionTotals (sec : Sect) : Nat × Nat :=
  if sec.type = some "exercise" ∧ sec.subExercises.isSome then
    ((sec.subExercises.getD []).foldl (fun acc p => acc + p.2.questions.length) 0,
     (sec.subExercises.getD []).foldl
       (fun acc p => acc + (p.2.questions.filter (·.completed)).length) 0)
  else
    ((sec.questions.getD []).length,
     ((sec.questions.getD []).filter (·.completed)).length)

/-- `calculateProgress` (src/app.jsx lines 43-64).  Sums totals over
`Object.values(chapter.sections)` and returns
`Math.round((completedQs / totalQs) * 100)`, with 0 for an empty section
map and for a zero total.  The rounding of the non-negative quotient is
represented exactly as `(200 * completed + total) / (2 * total)` in `ℕ`. -/
def calculateProgress (chapter : Chapter) : Nat :=
  let sections := chapter.sections.map (·.2)
  if sections.length = 0 then 0
  else
    let totals := sections.foldl
      (fun acc sec => (acc.1 + (sectionTotals sec).1, acc.2 + (sectionTotals sec).2))
      (0, 0)
    if totals.1 = 0 then 0 else (200 * totals.2 + totals.1) / (2 * totals.1)

/-- `addSubject` (src/app.jsx lines 248-252): no-op when the name trims to
empty, otherwise append a fresh subject with an empty chapter list. -/
def addSubject (tree : Tree) (name : String) (freshId : String) : Tree :=
  if name.trim = "" then tree
  else tree ++ [{ id := freshId, name := name, chapters := [] }]

/-- JS `String.prototype.toLowerCase` on the ASCII kind labels: lower-case
every character.  (Defined by structural recursion over the character list
so that it evaluates inside the kernel; `String.toLower` is extensionally
the same map but is defined by well-founded recursion.) -/
def jsToLowerCase (s : String) : String := ⟨s.data.map Char.toLower⟩

/-- One section object built by the `addChapter` loop (src/app.jsx line 257):
`{id, label: type, type: type.toLowerCase(), questions: [],
...(type === 'EXERCISE' ? { subExercises: {} } : {})}`. -/
def mkSection (id ty : String) : Sect :=
  { id := some id, label := some ty, type := some (jsToLowerCase ty),
    questions := some [],
    subExercises := if ty = "EXERCISE" then some [] else none }

/-- The `sections` object accumulated by the `addChapter` loop: one entry per
requested kind, keyed by the fresh id of that iteration. -/
def buildSections (kinds : List String) (fresh : Nat → String) :
    List (String × Sect) :=
  kinds.enum.foldl (fun m p => setKey m (fresh p.1) (mkSection (fresh p.1) p.2)) []

/-- `addChapter` (src/app.jsx lines 253-260): appends a chapter with
`progress = 0` and the built section map to the matching subject. -/
def addChapter (tree : Tree) (sId name : String) (kinds : List String)
    (fresh : Nat → String) (chId : String) : Tree :=
  tree.map fun s =>
    if s.id = sId then
      { s with chapters := s.chapters ++
          [{ id := chId, name := name, progress := 0,
             sections := buildSections kinds fresh }] }
    else s

/-- The question-list map of `toggleQuestion`: flip exactly the matching
question's `completed` flag. -/
def toggleList (qs : List Question) (qId : String) : List Question :=
  qs.map fun q => if q.id = qId then { q with completed := !q.completed } else q

/-- The chapter body of `toggleQuestion` (src/app.jsx lines 265-276) for the
chapter matching `cId`.  Every JS property access that throws on `undefined`
(`sec.subExercises[...]`, `sub.questions.map`, `sec.questions.map`) is a
monadic bind, so a missing section / sub-exercise / question-list makes the
whole operation `none` (the thrown `TypeError`). -/
def toggleChapter (c : Chapter) (secId qId : String) (subExId : Option String) :
    Option Chapter :=
  match subExId with
  | some subId => do
      let sec ← getKey c.sections secId
      let subs ← sec.subExercises
      let sub ← getKey subs subId
      let upd := toggleList sub.questions qId
      let newSubs := setKey subs subId { sub with questions := upd }
      let newSecs := setKey c.sections secId { sec with subExercises := some newSubs }
      pure { c with sections := newSecs,
                    progress := calculateProgress { c with sections := newSecs } }
  | none => do
      let sec ← getKey c.sections secId
      let qs ← sec.questions
      let upd := toggleList qs qId
      let newSecs := setKey c.sections secId { sec with questions := some upd }
      pure { c with sections := newSecs,
                    progress := calculateProgress { c with sections := newSecs } }

/-- `toggleQuestion` (src/app.jsx lines 261-280).  `none` models the map
callback throwing (which aborts the update before `saveData` is reached). -/
def toggleQuestion (tree : Tree) (sId cId secId qId : String)
    (subExId : Option String) : Option Tree :=
  mapOrThrow (fun s =>
    if s.id = sId then do
      let chs ← mapOrThrow
        (fun c => if c.id = cId then toggleChapter c secId qId subExId else some c)
        s.chapters
      pure { s with chapters := chs }
    else some s) tree

/-- The fresh question list `Array.from({length: count}, (_, i) =>
({id: q-(i+1), completed: false}))`; a non-positive length yields `[]`. -/
def mkQuestions (n : Nat) : List Question :=
  (List.range n).map fun i => { id := "q-" ++ toString (i + 1), completed := false }

/-- `genQuestions` (src/app.jsx lines 281-292).  Note the JS spread
`{...c.sections[secId], questions: updQs}`: when `secId` is missing the
spread of `undefined` is `{}`, so a fresh section object carrying only
`questions` is inserted (no throw). -/
def genQuestions (tree : Tree) (sId cId secId : String) (count : Int) : Tree :=
  tree.map fun s =>
    if s.id = sId then
      { s with chapters := s.chapters.map fun c =>
          if c.id = cId then
            let updQs := mkQuestions count.toNat
            let newSecs := setKey c.sections secId
              { (getKey c.sections secId).getD {} with questions := some updQs }
            { c with sections := newSecs,
                     progress := calculateProgress { c with sections := newSecs } }
          else c }
    else s

/-- `deleteChapter` (src/app.jsx lines 293-296). -/
def deleteChapter (tree : Tree) (sId cId : String) : Tree :=
  tree.map fun s =>
    if s.id = sId then
      { s with chapters := s.chapters.filter fun c => decide (c.id ≠ cId) }
    else s

/-- `addGenericSection` (src/app.jsx lines 299-309): inserts a fresh
`custom` section with an empty question list (and no `subExercises` field). -/
def addGenericSection (tree : Tree) (sId cId label secId : String) : Tree :=
  tree.map fun s =>
    if s.id = sId then
      { s with chapters := s.chapters.map fun c =>
          if c.id = cId then
            let newSecs := setKey c.sections secId
              { id := some secId, label := some label, type := some "custom",
                questions := some [], subExercises := none }
            { c with sections := newSecs,
                     progress := calculateProgress { c with sections := newSecs } }
          else c }
    else s

/-- `addSubExercise` (src/app.jsx lines 310-322).  The access
`c.sections[secId].subExercises` throws when the section is missing (the
bind on `getKey`); `...(c.sections[secId].subExercises || {})` defaults an
absent map to `{}` (`getD []`).  No check of the section's `type` is made. -/
def addSubExercise (tree : Tree) (sId cId secId name : String) (count : Int)
    (subId : String) : Option Tree :=
  mapOrThrow (fun s =>
    if s.id = sId then do
      let chs ← mapOrThrow
        (fun c =>
          if c.id = cId then do
            let sec ← getKey c.sections secId
            let newSub : SubExercise :=
              { id := subId, name := name, questions := mkQuestions count.toNat }
            let newSubs := setKey (sec.subExercises.getD []) subId newSub
            let newSecs := setKey c.sections secId { sec with subExercises := some newSubs }
            pure { c with sections := newSecs,
                          progress := calculateProgress { c with sections := newSecs } }
          else some c)
        s.chapters
      pure { s with chapters := chs }
    else some s) tree

/-- The identity collaborator's user record (only `uid` is interpreted by the
sync code). -/
structure UserInfo where
  uid : String
deriving DecidableEq, Repr

/-- Observable effects of the sync controller on shared state: `setTree`
models `setSubjects` (the in-memory tree becoming visible) and `writeDoc`
models dispatching `setDoc` of `{list: newSubjs}` for the user's document. -/
inductive SyncAction where
  | setTree (t : Tree)
  | writeDoc (uid : String) (t : Tree)
deriving DecidableEq, Repr

/-- `saveData` (src/app.jsx lines 168-175): no user means no write; otherwise
exactly one full-document write is dispatched. -/
def saveData (user : Option UserInfo) (newSubjs : Tree) : List SyncAction :=
  match user with
  | none => []
  | some u => [SyncAction.writeDoc u.uid newSubjs]

/-- The `toggleQuestion` handler (src/app.jsx lines 261-280) as an effect
trace: compute the new tree (possibly throwing) and call `saveData` on it.
The source never calls `setSubjects` here. -/
def toggleQuestionHandler (user : Option UserInfo) (subjects : Tree)
    (sId cId secId qId : String) (subExId : Option String) :
    Option (List SyncAction) :=
  (toggleQuestion subjects sId cId secId qId subExId).map (saveData user)

/-- The `onSnapshot` listener (src/app.jsx lines 137-141): an existing
document replaces the whole in-memory tree with `snap.data().list || []`;
a missing document does nothing. -/
def onSnapshotHandler (snap : Option (Option Tree)) : List SyncAction :=
  match snap with
  | some d => [SyncAction.setTree (d.getD [])]
  | none => []

/-- Subject lookup `subjects.find(s => s.id === sId)` (src/app.jsx line 368). -/
def findSubject (t : Tree) (sId : String) : Option Subject :=
  t.find? fun s => decide (s.id = sId)

/-- Chapter lookup `s?.chapters.find(ch => ch.id === cId)`. -/
def findChapter (t : Tree) (sId cId : String) : Option Chapter :=
  (findSubject t sId).bind fun s => s.chapters.find? fun c => decide (c.id = cId)

/-- Section lookup `c?.sections?.[secId]`. -/
def getSection (t : Tree) (sId cId secId : String) : Option Sect :=
  (findChapter t sId cId).bind fun c => getKey c.sections secId

/-- The `completed` flag of the addressed question (through a sub-exercise
when `subExId` is given, directly on the section otherwise). -/
def getQuestionFlag (t : Tree) (sId cId secId : String) (subExId : Option String)
    (qId : String) : Option Bool :=
  (getSection t sId cId secId).bind fun sec =>
    match subExId with
    | some subId =>
        (sec.subExercises.bind fun subs => getKey subs subId).bind fun sub =>
          (sub.questions.find? fun q => decide (q.id = qId)).map (·.completed)
    | none =>
        sec.questions.bind fun qs =>
          (qs.find? fun q => decide (q.id = qId)).map (·.completed)

/-- Keys of a JS-object association list are pairwise distinct. -/
def keysNodup {α : Type} (m : List (String × α)) : Prop :=
  (m.map Prod.fst).Nodup

/-- The consistency invariant maintained by the app (spec §3): section and
sub-exercise maps are real JS objects (distinct keys) and every chapter's
cached `progress` equals the aggregator's value. -/
def WellFormed (t : Tree) : Prop :=
  ∀ s ∈ t, ∀ c ∈ s.chapters,
    keysNodup c.sections ∧ c.progress = calculateProgress c ∧
    ∀ p ∈ c.sections, keysNodup (p.2.subExercises.getD [])

/-! ### Spec-side counting (for the refinement statement of claim C1)

These two functions are written from the words of the spec/claim — "all
questions reached through the chapter's sections, flattening sub-exercise
question lists for exercise-kind sections" — to be compared with the code's
accumulation in `calculateProgress`. -/

/-- Spec-side total of a section: flatten sub-exercise lists for an
exercise-kind section, otherwise the direct question list. -/
def specSectionTotal (sec : Sect) : Nat :=
  if sec.type = some "exercise" then
    ((sec.subExercises.getD []).map fun p => p.2.questions.length).sum
  else (sec.questions.getD []).length

/-- Spec-side completed count of a section (same flattening). -/
def specSectionDone (sec : Sect) : Nat :=
  if sec.type = some "exercise" then
    ((sec.subExercises.getD []).map fun p => (p.2.questions.filter (·.completed)).length).sum
  else ((sec.questions.getD []).filter (·.completed)).length

/-- Spec-side total question count of a chapter. -/
def specTotalQuestions (c : Chapter) : Nat :=
  (c.sections.map fun p => specSectionTotal p.2).sum

/-- Spec-side completed question count of a chapter. -/
def specCompletedQuestions (c : Chapter) : Nat :=
  (c.sections.map fun p => specSectionDone p.2).sum

/-! ### The "same chapter, more completed flags" relation (claim C8)

`chapterLe c₁ c₂` holds when the two chapters are identical except that some
questions with `completed = false` in `c₁` have `completed = true` in `c₂`:
same sections in the same order, same keys, same ids/labels/types/names and
same question lists up to the completed flag, which may only go
`false → true`. -/

/-- Same question up to `completed`, which may only go `false → true`. -/
def qLe (a b : Question) : Bool :=
  decide (a.id = b.id) && (!a.completed || b.completed)

/-- Pointwise `qLe` on equal-length question lists. -/
def qsLe : List Question → List Question → Bool
  | [], [] => true
  | a :: as, b :: bs => qLe a b && qsLe as bs
  | _, _ => false

/-- Same sub-exercise up to completed flags. -/
def subLe (a b : SubExercise) : Bool :=
  decide (a.id = b.id) && decide (a.name = b.name) && qsLe a.questions b.questions

/-- Pointwise `subLe` on equal sub-exercise maps (same keys, same order). -/
def subsLe : List (String × SubExercise) → List (String × SubExercise) → Bool
  | [], [] => true
  | p :: ps, q :: qs => decide (p.1 = q.1) && subLe p.2 q.2 && subsLe ps qs
  | _, _ => false

/-- Option-lifted `qsLe` (both absent or both present and related). -/
def optQsLe : Option (List Question) → Option (List Question) → Bool
  | none, none => true
  | some a, some b => qsLe a b
  | _, _ => false

/-- Option-lifted `subsLe`. -/
def optSubsLe : Option (List (String × SubExercise)) →
    Option (List (String × SubExercise)) → Bool
  | none, none => true
  | some a, some b => subsLe a b
  | _, _ => false

/-- Same section up to completed flags. -/
def secLe (a b : Sect) : Bool :=
  decide (a.id = b.id) && decide (a.label = b.label) && decide (a.type = b.type) &&
    optQsLe a.questions b.questions && optSubsLe a.subExercises b.subExercises

/-- Pointwise `secLe` on equal section maps (same keys, same order). -/
def sectionsLe : List (String × Sect) → List (String × Sect) → Bool
  | [], [] => true
  | p :: ps, q :: qs => decide (p.1 = q.1) && secLe p.2 q.2 && sectionsLe ps qs
  | _, _ => false

/-- Same chapter up to completed flags (the cached `progress` field is not
constrained: `calculateProgress` never reads it). -/
def chapterLe (a b : Chapter) : Bool :=
  decide (a.id = b.id) && decide (a.name = b.name) && sectionsLe a.sections b.sections

/-! ### Concrete fixtures used by witnesses and counterexamples -/

/-- A sub-exercise with 4 fresh questions, as `addSubExercise` builds it. -/
def exSub : SubExercise := { id := "sub1", name := "Set A", questions := mkQuestions 4 }

/-- An exercise section as `addChapter` + `addSubExercise` produce it. -/
def exSecEx : Sect :=
  { id := some "se1", label := some "EXERCISE", type := some "exercise",
    questions := some [], subExercises := some [("sub1", exSub)] }

/-- A custom section with 2 fresh questions. -/
def exSecCustom : Sect :=
  { id := some "se2", label := some "NOTES", type := some "custom",
    questions := some (mkQuestions 2), subExercises := none }

/-- A consistent chapter (progress 0 = `calculateProgress` of 6 incomplete
questions). -/
def exChapter : Chapter :=
  { id := "c1", name := "Ch", progress := 0,
    sections := [("se1", exSecEx), ("se2", exSecCustom)] }

/-- A subject holding `exChapter`. -/
def exSubject : Subject := { id := "s1", name := "Math", chapters := [exChapter] }

/-- A one-subject example tree. -/
def exTree : Tree := [exSubject]

/-- `exSecCustom` with its first question toggled to completed. -/
def exSecCustomT : Sect :=
  { exSecCustom with
    questions := some [{ id := "q-1", completed := true }, { id := "q-2", completed := false }] }

/-- `exTree` after `toggleQuestion _ "s1" "c1" "se2" "q-1" none`: question
`q-1` completed and the chapter progress recomputed to 17 (1 of 6). -/
def exTreeT : Tree :=
  [{ exSubject with
     chapters := [{ exChapter with
                    progress := 17,
                    sections := [("se1", exSecEx), ("se2", exSecCustomT)] }] }]

/-- `exChapter` with one more completed flag (same sections and totals). -/
def exChapterHi : Chapter :=
  { exChapter with sections := [("se1", exSecEx), ("se2", exSecCustomT)] }

/-- A tree with one subject and no chapters (fixture for `addChapter`). -/
def exTree0 : Tree := [{ id := "s1", name := "Math", chapters := [] }]

/-- A deterministic stand-in for the `crypto.randomUUID()` supply of the
`addChapter` loop. -/
def exFresh : Nat → String := fun i => "sec-" ++ toString i

/-- `exSecCustom` (a non-exercise section) after `addSubExercise` stuck a
sub-exercise map onto it. -/
def exSecCustom7 : Sect :=
  { exSecCustom with
    subExercises := some [("subX", { id := "subX", name := "X", questions := mkQuestions 2 })] }

/-- `exTree` after `addSubExercise _ "s1" "c1" "se2" "X" 2 "subX"`: the
custom section now carries a sub-exercise map; progress stays 0 (the
aggregator still counts the direct list of a custom section). -/
def exTree7 : Tree :=
  [{ exSubject with
     chapters := [{ exChapter with
                    progress := 0,
                    sections := [("se1", exSecEx), ("se2", exSecCustom7)] }] }]

/-- The question list the spec expects from `generateQuestions` with
count 5: exactly five incomplete questions with positional ids. -/
def specFiveQuestions : List Question :=
  [{ id := "q-1", completed := false }, { id := "q-2", completed := false },
   { id := "q-3", completed := false }, { id := "q-4", completed := false },
   { id := "q-5", completed := false }]

/-- A section rewrite used to witness claim C9: drop the direct question
list of exercise sections carrying a sub-exercise map, and drop the
sub-exercise map of non-exercise sections. -/
def exG : Sect → Sect := fun s =>
  if s.type = some "exercise" then
    if s.subExercises.isSome then { s with questions := none } else s
  else { s with subExercises := none }

/-! ### Generic lemmas about the embedding's list combinators -/

theorem optionBind_eq_some {α β : Type} {x : Option α} {f : α → Option β} {b : β}
    (h : (x >>= f) = some b) : ∃ a, x = some a ∧ f a = some b := by
  cases x with
  | none => cases h
  | some a => exact ⟨a, rfl, h⟩

theorem map_congr_id {α : Type} {l : List α} {f : α → α}
    (h : ∀ a ∈ l, f a = a) : l.map f = l := by
  induction l with
  | nil => rfl
  | cons a as ih =>
    simp only [List.map_cons, h a (by simp), ih fun a ha => h a (by simp [ha])]

theorem filter_congr_true {α : Type} {l : List α} {p : α → Bool}
    (h : ∀ a ∈ l, p a = true) : l.filter p = l := by
  induction l with
  | nil => rfl
  | cons a as ih =>
    simp only [List.filter_cons, h a (by simp), if_pos trivial,
      ih fun a ha => h a (by simp [ha])]

theorem mapOrThrow_nil {α β : Type} (g : α → Option β) :
    mapOrThrow g [] = some [] := rfl

theorem mapOrThrow_cons {α β : Type} (g : α → Option β) (a : α) (as : List α) :
    mapOrThrow g (a :: as) =
      (g a).bind fun b => (mapOrThrow g as).bind fun bs => some (b :: bs) := rfl

theorem mapOrThrow_congr_id {α : Type} {g : α → Option α} {l : List α}
    (h : ∀ a ∈ l, g a = some a) : mapOrThrow g l = some l := by
  induction l with
  | nil => rfl
  | cons a as ih =>
    rw [mapOrThrow_cons, h a (by simp), ih fun a ha => h a (by simp [ha])]
    rfl

theorem mapOrThrow_invol {α : Type} {g : α → Option α} {l l₁ : List α}
    (h : ∀ a ∈ l, ∀ b, g a = some b → g b = some a)
    (h₁ : mapOrThrow g l = some l₁) : mapOrThrow g l₁ = some l := by
  induction l generalizing l₁ with
  | nil => cases h₁; rfl
  | cons a as ih =>
    rw [mapOrThrow_cons] at h₁
    rcases Option.bind_eq_some.mp h₁ with ⟨b, hb, h₁⟩
    rcases Option.bind_eq_some.mp h₁ with ⟨bs, hbs, h₁⟩
    cases h₁
    rw [mapOrThrow_cons, h a (by simp) b hb,
      ih (fun x hx => h x (by simp [hx])) hbs]
    rfl

theorem find?_mapOrThrow {α : Type} (P : α → Prop) [DecidablePred P]
    {g : α → Option α} {l l' : List α}
    (hmap : mapOrThrow g l = some l')
    (hskip : ∀ a ∈ l, ¬ P a → g a = some a)
    (hkeep : ∀ a ∈ l, ∀ b, g a = some b → (P b ↔ P a)) :
    l'.find? (fun a => decide (P a)) = (l.find? fun a => decide (P a)).bind g := by
  induction l generalizing l' with
  | nil => cases hmap; rfl
  | cons a as ih =>
    rw [mapOrThrow_cons] at hmap
    rcases Option.bind_eq_some.mp hmap with ⟨b, hb, hmap⟩
    rcases Option.bind_eq_some.mp hmap with ⟨bs, hbs, hmap⟩
    cases hmap
    by_cases hPa : P a
    · have hPb : P b := (hkeep a (by simp) b hb).mpr hPa
      simp [List.find?_cons, hPa, hPb, hb]
    · have hba : b = a := by
        have := hskip a (by simp) hPa
        rw [this] at hb; exact (Option.some.inj hb).symm
      subst hba
      rw [List.find?_cons_of_neg _ (by simp [hPa]),
        List.find?_cons_of_neg _ (by simp [hPa])]
      exact ih hbs (fun x hx => hskip x (by simp [hx]))
        (fun x hx => hkeep x (by simp [hx]))

theorem find?_map_ite {α : Type} (P : α → Prop) [DecidablePred P]
    (f : α → α) (l : List α) (hf : ∀ a, P a → P (f a)) :
    (l.map fun a => if P a then f a else a).find? (fun a => decide (P a)) =
      (l.find? fun a => decide (P a)).map f := by
  induction l with
  | nil => rfl
  | cons a as ih =>
    by_cases hPa : P a
    · simp [List.find?_cons, hPa, hf a hPa]
    · simp only [List.map_cons, if_neg hPa, List.find?_cons, decide_eq_false hPa,
        Bool.false_eq_true]
      exact ih

theorem mapOrThrow_forall_some {α : Type} {g : α → Option α} {l l' : List α}
    (hmap : mapOrThrow g l = some l') : ∀ a ∈ l, ∃ b, g a = some b := by
  induction l generalizing l' with
  | nil => intro a ha; cases ha
  | cons a as ih =>
    rw [mapOrThrow_cons] at hmap
    rcases Option.bind_eq_some.mp hmap with ⟨b, hb, hmap⟩
    rcases Option.bind_eq_some.mp hmap with ⟨bs, hbs, -⟩
    intro x hx
    rcases List.mem_cons.mp hx with h | h
    · exact ⟨b, h ▸ hb⟩
    · exact ih hbs x h

/-! ### Lemmas about the JS-object model `getKey` / `setKey` -/

theorem getKey_setKey_self {α : Type} (m : List (String × α)) (k : String) (v : α) :
    getKey (setKey m k v) k = some v := by
  unfold setKey
  by_cases h : hasKey m k = true
  · rw [if_pos h]
    unfold hasKey at h
    rcases List.any_eq_true.mp h with ⟨p, hp, hpk⟩
    clear h
    induction m with
    | nil => cases hp
    | cons q m ih =>
      by_cases hq : q.1 = k
      · simp [getKey, List.find?_cons, hq]
      · rcases List.mem_cons.mp hp with h | h
        · subst h; exact absurd (of_decide_eq_true hpk) hq
        · simp only [List.map_cons, if_neg hq]
          unfold getKey
          rw [List.find?_cons, decide_eq_false hq]
          exact ih h
  · rw [if_neg h]
    unfold hasKey at h
    induction m with
    | nil => simp [getKey]
    | cons q m ih =>
      have hq : ¬ q.1 = k := by
        intro hk
        exact h (List.any_eq_true.mpr ⟨q, by simp, decide_eq_true hk⟩)
      unfold getKey
      rw [List.cons_append, List.find?_cons, decide_eq_false hq]
      exact ih fun hx => h (by
        rcases List.any_eq_true.mp hx with ⟨p, hp, hpk⟩
        exact List.any_eq_true.mpr ⟨p, by simp [hp], hpk⟩)

theorem getKey_mem {α : Type} {m : List (String × α)} {k : String} {v : α}
    (h : getKey m k = some v) : (k, v) ∈ m := by
  unfold getKey at h
  rcases Option.map_eq_some'.mp h with ⟨p, hp, hv⟩
  have hk : p.1 = k := by simpa using List.find?_some hp
  have hm := List.mem_of_find?_eq_some hp
  have : p = (k, v) := by
    cases p; simp_all
  exact this ▸ hm

theorem hasKey_of_getKey {α : Type} {m : List (String × α)} {k : String} {v : α}
    (h : getKey m k = some v) : hasKey m k = true :=
  List.any_eq_true.mpr ⟨(k, v), getKey_mem h, by simp⟩

theorem getKey_unique {α : Type} {m : List (String × α)} {k : String} {v : α}
    (hn : keysNodup m) (h : getKey m k = some v) :
    ∀ p ∈ m, p.1 = k → p = (k, v) := by
  induction m with
  | nil => intro p hp; cases hp
  | cons q m ih =>
    have hn' : keysNodup m := (List.nodup_cons.mp hn).2
    intro p hp hpk
    by_cases hq : q.1 = k
    · have hv : q.2 = v := by
        unfold getKey at h
        rw [List.find?_cons, decide_eq_true hq] at h
        simpa using h
      rcases List.mem_cons.mp hp with hpq | hpm
      · subst hpq; cases p; simp_all
      · exfalso
        have : p.1 ∈ m.map Prod.fst := List.mem_map.mpr ⟨p, hpm, rfl⟩
        rw [hpk, ← hq] at this
        exact (List.nodup_cons.mp hn).1 this
    · rcases List.mem_cons.mp hp with hpq | hpm
      · subst hpq; exact absurd hpk hq
      · unfold getKey at h
        rw [List.find?_cons, decide_eq_false hq] at h
        exact ih hn' h p hpm hpk

theorem mem_setKey {α : Type} {m : List (String × α)} {k : String} {v : α}
    {q : String × α} (h : q ∈ setKey m k v) : q ∈ m ∨ q = (k, v) := by
  unfold setKey at h
  split at h
  · rcases List.mem_map.mp h with ⟨p, hp, hq⟩
    by_cases hpk : p.1 = k
    · right; rw [← hq, if_pos hpk]
    · left; rw [← hq, if_neg hpk]; exact hp
  · rcases List.mem_append.mp h with h | h
    · left; exact h
    · right; simpa using h

theorem setKey_pos {α : Type} {m : List (String × α)} {k : String} (v : α)
    (h : hasKey m k = true) :
    setKey m k v = m.map fun p => if p.1 = k then (k, v) else p := by
  unfold setKey
  rw [if_pos h]

theorem setKey_setKey_cancel {α : Type} {m : List (String × α)} {k : String}
    {v : α} (v' : α) (hn : keysNodup m) (h : getKey m k = some v) :
    setKey (setKey m k v') k v = m := by
  have hk : hasKey m k = true := hasKey_of_getKey h
  have hk' : hasKey (setKey m k v') k = true :=
    hasKey_of_getKey (getKey_setKey_self m k v')
  rw [setKey_pos v hk', setKey_pos v' hk, List.map_map]
  apply map_congr_id
  intro p hp
  by_cases hpk : p.1 = k
  · have hpv : p = (k, v) := getKey_unique hn h p hp hpk
    simp [Function.comp, hpk, hpv]
  · simp [Function.comp, hpk]

/-! ### Fold-to-sum conversions for the aggregator -/

theorem foldl_add_eq {α : Type} (f : α → Nat) :
    ∀ (l : List α) (n : Nat), l.foldl (fun a x => a + f x) n = n + (l.map f).sum
  | [], n => by simp
  | a :: as, n => by
    simp only [List.foldl_cons, List.map_cons, List.sum_cons, foldl_add_eq f as]
    omega

theorem foldl_pair_eq {α : Type} (f g : α → Nat) :
    ∀ (l : List α) (a b : Nat),
      l.foldl (fun acc x => (acc.1 + f x, acc.2 + g x)) (a, b) =
        (a + (l.map f).sum, b + (l.map g).sum)
  | [], a, b => by simp
  | x :: xs, a, b => by
    simp only [List.foldl_cons, List.map_cons, List.sum_cons, foldl_pair_eq f g xs,
      Nat.add_assoc]

theorem calculateProgress_congr {c₁ c₂ : Chapter}
    (h : c₁.sections = c₂.sections) :
    calculateProgress c₁ = calculateProgress c₂ := by
  unfold calculateProgress
  rw [h]

/-! ### Path lemmas: locating the updated entity after a mutation -/

theorem findSubject_id {t : Tree} {sId : String} {s : Subject}
    (h : findSubject t sId = some s) : s.id = sId := by
  unfold findSubject at h
  simpa using List.find?_some h

theorem findSubject_mem {t : Tree} {sId : String} {s : Subject}
    (h : findSubject t sId = some s) : s ∈ t := by
  unfold findSubject at h
  exact List.mem_of_find?_eq_some h

theorem findChapter_id {t : Tree} {sId cId : String} {c : Chapter}
    (h : findChapter t sId cId = some c) : c.id = cId := by
  unfold findChapter at h
  rcases Option.bind_eq_some.mp h with ⟨s, -, hc⟩
  simpa using List.find?_some hc

theorem findChapter_mem {t : Tree} {sId cId : String} {c : Chapter}
    (h : findChapter t sId cId = some c) :
    ∃ s ∈ t, s.id = sId ∧ c ∈ s.chapters := by
  unfold findChapter at h
  rcases Option.bind_eq_some.mp h with ⟨s, hs, hc⟩
  exact ⟨s, findSubject_mem hs, findSubject_id hs, List.mem_of_find?_eq_some hc⟩

theorem findSubject_map_ite (t : Tree) (sId : String) (F : Subject → Subject)
    (hF : ∀ s, (F s).id = s.id) :
    findSubject (t.map fun s => if s.id = sId then F s else s) sId =
      (findSubject t sId).map F := by
  unfold findSubject
  exact find?_map_ite (fun s => s.id = sId) F t fun s hs => by
    show (F s).id = sId
    rw [hF]; exact hs

theorem findChapter_map_ite (t : Tree) (sId cId : String) (G : Chapter → Chapter)
    (hG : ∀ c, (G c).id = c.id) :
    findChapter (t.map fun s =>
      if s.id = sId then
        { s with chapters := s.chapters.map fun c => if c.id = cId then G c else c }
      else s) sId cId = (findChapter t sId cId).map G := by
  unfold findChapter
  rw [findSubject_map_ite t sId
    (fun s => { s with chapters := s.chapters.map fun c => if c.id = cId then G c else c })
    (fun s => rfl)]
  cases h : findSubject t sId with
  | none => rfl
  | some s =>
    simp only [Option.map_some', Option.some_bind]
    exact find?_map_ite (fun c => c.id = cId) G s.chapters fun c hc => by
      show (G c).id = cId
      rw [hG]; exact hc

theorem findChapter_mapOrThrow {t t' : Tree} {sId cId : String}
    (Gc : Chapter → Option Chapter)
    (hGc : ∀ c c', Gc c = some c' → c'.id = c.id)
    (hmap : mapOrThrow (fun s =>
        if s.id = sId then do
          let chs ← mapOrThrow
            (fun c => if c.id = cId then Gc c else some c) s.chapters
          pure { s with chapters := chs }
        else some s) t = some t') :
    findChapter t' sId cId = (findChapter t sId cId).bind Gc := by
  have hskipS : ∀ s ∈ t, ¬ (s.id = sId) →
      (if s.id = sId then do
        let chs ← mapOrThrow (fun c => if c.id = cId then Gc c else some c) s.chapters
        pure { s with chapters := chs }
      else some s) = some s := by
    intro s _ hs; rw [if_neg hs]
  have hkeepS : ∀ s ∈ t, ∀ b,
      (if s.id = sId then do
        let chs ← mapOrThrow (fun c => if c.id = cId then Gc c else some c) s.chapters
        pure { s with chapters := chs }
      else some s) = some b → (b.id = sId ↔ s.id = sId) := by
    intro s _ b hb
    by_cases hP : s.id = sId
    · rw [if_pos hP] at hb
      rcases optionBind_eq_some hb with ⟨chs, -, hpure⟩
      have : b = { s with chapters := chs } := (Option.some.inj hpure).symm
      subst this
      exact Iff.rfl
    · rw [if_neg hP] at hb
      cases Option.some.inj hb
      exact Iff.rfl
  have hsub := find?_mapOrThrow (fun s : Subject => s.id = sId) hmap hskipS hkeepS
  unfold findChapter findSubject
  rw [hsub]
  cases hfs : List.find? (fun s => decide (s.id = sId)) t with
  | none => rfl
  | some s =>
    have hsid : s.id = sId := by simpa using List.find?_some hfs
    have hmem : s ∈ t := List.mem_of_find?_eq_some hfs
    obtain ⟨b, hb⟩ := mapOrThrow_forall_some hmap s hmem
    have hb' := hb
    rw [if_pos hsid] at hb'
    rcases optionBind_eq_some hb' with ⟨chs, hchs, hpure⟩
    have hbval : b = { s with chapters := chs } := (Option.some.inj hpure).symm
    subst hbval
    simp only [Option.some_bind, hb]
    have hskipC : ∀ c ∈ s.chapters, ¬ (c.id = cId) →
        (if c.id = cId then Gc c else some c) = some c := by
      intro c _ hc; rw [if_neg hc]
    have hkeepC : ∀ c ∈ s.chapters, ∀ b,
        (if c.id = cId then Gc c else some c) = some b → (b.id = cId ↔ c.id = cId) := by
      intro c _ b hbc
      by_cases hP : c.id = cId
      · rw [if_pos hP] at hbc
        rw [hGc c b hbc]
      · rw [if_neg hP] at hbc
        cases Option.some.inj hbc
        exact Iff.rfl
    have hch := find?_mapOrThrow (fun c : Chapter => c.id = cId) hchs hskipC hkeepC
    show chs.find? _ = _
    rw [hch]
    cases hfc : List.find? (fun c => decide (c.id = cId)) s.chapters with
    | none => rfl
    | some c =>
      have hcid : c.id = cId := by simpa using List.find?_some hfc
      simp only [Option.some_bind, if_pos hcid]

/-! ### Involution of `toggleQuestion` -/

theorem toggleList_toggleList (qs : List Question) (qId : String) :
    toggleList (toggleList qs qId) qId = qs := by
  unfold toggleList
  rw [List.map_map]
  apply map_congr_id
  intro q _
  by_cases h : q.id = qId
  · cases q with
    | mk i cpl => simp_all [Bool.not_not]
  · simp [Function.comp, h]

theorem toggleChapter_id {c c' : Chapter} {secId qId : String}
    {subExId : Option String}
    (h : toggleChapter c secId qId subExId = some c') : c'.id = c.id := by
  unfold toggleChapter at h
  cases subExId with
  | some subId =>
    rcases optionBind_eq_some h with ⟨sec, hsec, h⟩
    rcases optionBind_eq_some h with ⟨subs, hsubs, h⟩
    rcases optionBind_eq_some h with ⟨sub, hsub, h⟩
    cases Option.some.inj h
    rfl
  | none =>
    rcases optionBind_eq_some h with ⟨sec, hsec, h⟩
    rcases optionBind_eq_some h with ⟨qs, hqs, h⟩
    cases Option.some.inj h
    rfl

theorem toggleChapter_none_eq (c : Chapter) (secId qId : String)
    {sec : Sect} {qs : List Question}
    (hsec : getKey c.sections secId = some sec)
    (hqs : sec.questions = some qs) :
    toggleChapter c secId qId none =
      some { c with
             sections := setKey c.sections secId { sec with questions := some (toggleList qs qId) },
             progress := calculateProgress { c with sections := setKey c.sections secId { sec with questions := some (toggleList qs qId) } } } := by
  unfold toggleChapter
  rw [hsec]
  simp only [Option.bind_eq_bind, Option.some_bind]
  rw [hqs]
  simp only [Option.some_bind]
  rfl

theorem toggleChapter_some_eq (c : Chapter) (secId qId subId : String)
    {sec : Sect} {subs : List (String × SubExercise)} {sub : SubExercise}
    (hsec : getKey c.sections secId = some sec)
    (hsubs : sec.subExercises = some subs)
    (hsub : getKey subs subId = some sub) :
    toggleChapter c secId qId (some subId) =
      some { c with
             sections := setKey c.sections secId { sec with subExercises := some (setKey subs subId { sub with questions := toggleList sub.questions qId }) },
             progress := calculateProgress { c with sections := setKey c.sections secId { sec with subExercises := some (setKey subs subId { sub with questions := toggleList sub.questions qId }) } } } := by
  unfold toggleChapter
  rw [hsec]
  simp only [Option.bind_eq_bind, Option.some_bind]
  rw [hsubs]
  simp only [Option.some_bind]
  rw [hsub]
  simp only [Option.some_bind]
  rfl

theorem calculateProgress_mk (i n : String) (p p' : Nat) (m : List (String × Sect)) :
    calculateProgress (Chapter.mk i n p m) = calculateProgress (Chapter.mk i n p' m) := rfl

theorem toggleChapter_invol {c c' : Chapter} {secId qId : String}
    {subExId : Option String}
    (hn : keysNodup c.sections)
    (hp : c.progress = calculateProgress c)
    (hns : ∀ p ∈ c.sections, keysNodup (p.2.subExercises.getD []))
    (h : toggleChapter c secId qId subExId = some c') :
    toggleChapter c' secId qId subExId = some c := by
  cases subExId with
  | none =>
    rcases optionBind_eq_some (by { unfold toggleChapter at h; exact h }) with ⟨sec, hsec, h2⟩
    rcases optionBind_eq_some h2 with ⟨qs, hqs, h3⟩
    have hc' : c' = { c with
        sections := setKey c.sections secId { sec with questions := some (toggleList qs qId) },
        progress := calculateProgress { c with sections := setKey c.sections secId { sec with questions := some (toggleList qs qId) } } } :=
      (Option.some.inj h3).symm
    subst hc'
    rw [toggleChapter_none_eq _ secId qId (getKey_setKey_self c.sections secId _) rfl]
    obtain ⟨sid, slab, styp, sqs, ssub⟩ := sec
    simp only at hqs
    subst hqs
    obtain ⟨cid, cname, cprog, csecs⟩ := c
    simp only [toggleList_toggleList]
    rw [setKey_setKey_cancel _ hn hsec]
    congr 1
    simp only [Chapter.mk.injEq, and_true, true_and]
    rw [calculateProgress_mk cid cname _ cprog]
    exact hp.symm
  | some subId =>
    rcases optionBind_eq_some (by { unfold toggleChapter at h; exact h }) with ⟨sec, hsec, h2⟩
    rcases optionBind_eq_some h2 with ⟨subs, hsubs, h3⟩
    rcases optionBind_eq_some h3 with ⟨sub, hsub, h4⟩
    have hnsubs : keysNodup subs := by
      have hmem := getKey_mem hsec
      have := hns (secId, sec) hmem
      rw [hsubs] at this
      simpa using this
    have hc' : c' = { c with
        sections := setKey c.sections secId { sec with subExercises := some (setKey subs subId { sub with questions := toggleList sub.questions qId }) },
        progress := calculateProgress { c with sections := setKey c.sections secId { sec with subExercises := some (setKey subs subId { sub with questions := toggleList sub.questions qId }) } } } :=
      (Option.some.inj h4).symm
    subst hc'
    rw [toggleChapter_some_eq _ secId qId subId (getKey_setKey_self c.sections secId _) rfl
      (getKey_setKey_self subs subId _)]
    obtain ⟨bid, bname, bqs⟩ := sub
    obtain ⟨sid, slab, styp, sqs, ssub⟩ := sec
    simp only at hsubs
    subst hsubs
    obtain ⟨cid, cname, cprog, csecs⟩ := c
    simp only [toggleList_toggleList]
    rw [setKey_setKey_cancel _ hnsubs hsub, setKey_setKey_cancel _ hn hsec]
    congr 1
    simp only [Chapter.mk.injEq, and_true, true_and]
    rw [calculateProgress_mk cid cname _ cprog]
    exact hp.symm

/-! ### Monotonicity of the aggregator under completing questions (claim C8) -/

theorem qsLe_length {as bs : List Question} (h : qsLe as bs = true) :
    as.length = bs.length := by
  induction as generalizing bs with
  | nil => cases bs with
    | nil => rfl
    | cons b bs => simp [qsLe] at h
  | cons a as ih =>
    cases bs with
    | nil => simp [qsLe] at h
    | cons b bs =>
      simp only [qsLe, Bool.and_eq_true] at h
      simp [ih h.2]

theorem qsLe_done {as bs : List Question} (h : qsLe as bs = true) :
    (as.filter (·.completed)).length ≤ (bs.filter (·.completed)).length := by
  induction as generalizing bs with
  | nil => cases bs with
    | nil => exact Nat.le_refl _
    | cons b bs => simp [qsLe] at h
  | cons a as ih =>
    cases bs with
    | nil => simp [qsLe] at h
    | cons b bs =>
      simp only [qsLe, Bool.and_eq_true] at h
      have hq := h.1
      simp only [qLe, Bool.and_eq_true, Bool.or_eq_true, Bool.not_eq_true',
        decide_eq_true_eq] at hq
      have ih' := ih h.2
      by_cases ha : a.completed
      · have hb : b.completed = true := by
          rcases hq.2 with h' | h'
          · rw [ha] at h'; cases h'
          · exact h'
        simp [List.filter_cons, ha, hb, Nat.succ_le_succ ih']
      · have ha' : a.completed = false := by simpa using ha
        have hL : ((a :: as).filter (·.completed)).length =
            (as.filter (·.completed)).length := by
          rw [List.filter_cons]
          simp [ha']
        have hR : (bs.filter (·.completed)).length ≤
            ((b :: bs).filter (·.completed)).length := by
          rw [List.filter_cons]
          split
          · simp [Nat.le_succ]
          · exact Nat.le_refl _
        rw [hL]
        exact ih'.trans hR

theorem subsLe_total {as bs : List (String × SubExercise)} (h : subsLe as bs = true) :
    (as.map fun p => p.2.questions.length).sum =
      (bs.map fun p => p.2.questions.length).sum := by
  induction as generalizing bs with
  | nil => cases bs with
    | nil => rfl
    | cons b bs => simp [subsLe] at h
  | cons a as ih =>
    cases bs with
    | nil => simp [subsLe] at h
    | cons b bs =>
      simp only [subsLe, Bool.and_eq_true] at h
      have hsub := h.1.2
      simp only [subLe, Bool.and_eq_true] at hsub
      simp only [List.map_cons, List.sum_cons, qsLe_length hsub.2, ih h.2]

theorem subsLe_done {as bs : List (String × SubExercise)} (h : subsLe as bs = true) :
    (as.map fun p => (p.2.questions.filter (·.completed)).length).sum ≤
      (bs.map fun p => (p.2.questions.filter (·.completed)).length).sum := by
  induction as generalizing bs with
  | nil => cases bs with
    | nil => exact Nat.le_refl _
    | cons b bs => simp [subsLe] at h
  | cons a as ih =>
    cases bs with
    | nil => simp [subsLe] at h
    | cons b bs =>
      simp only [subsLe, Bool.and_eq_true] at h
      have hsub := h.1.2
      simp only [subLe, Bool.and_eq_true] at hsub
      simp only [List.map_cons, List.sum_cons]
      exact Nat.add_le_add (qsLe_done hsub.2) (ih h.2)

theorem secLe_totals {a b : Sect} (h : secLe a b = true) :
    (sectionTotals a).1 = (sectionTotals b).1 ∧
      (sectionTotals a).2 ≤ (sectionTotals b).2 := by
  simp only [secLe, Bool.and_eq_true, decide_eq_true_eq] at h
  obtain ⟨⟨⟨⟨-, -⟩, hty⟩, hq⟩, hsub⟩ := h
  unfold sectionTotals
  cases hsa : a.subExercises with
  | none =>
    cases hsb : b.subExercises with
    | none =>
      simp only [hsa, hsb, Option.isSome_none, Bool.false_eq_true, and_false,
        if_neg, not_false_eq_true]
      cases hqa : a.questions with
      | none =>
        cases hqb : b.questions with
        | none => simp
        | some qb => rw [hqa, hqb] at hq; simp [optQsLe] at hq
      | some qa =>
        cases hqb : b.questions with
        | none => rw [hqa, hqb] at hq; simp [optQsLe] at hq
        | some qb =>
          rw [hqa, hqb] at hq
          simp only [optQsLe] at hq
          simp [qsLe_length hq, qsLe_done hq]
    | some sb => rw [hsa, hsb] at hsub; simp [optSubsLe] at hsub
  | some sa =>
    cases hsb : b.subExercises with
    | none => rw [hsa, hsb] at hsub; simp [optSubsLe] at hsub
    | some sb =>
      rw [hsa, hsb] at hsub
      simp only [optSubsLe] at hsub
      by_cases hex : a.type = some "exercise"
      · have hexb : b.type = some "exercise" := hty ▸ hex
        simp only [hex, hexb, hsa, hsb, Option.isSome_some, and_true, if_pos,
          Option.getD_some]
        rw [foldl_add_eq, foldl_add_eq, foldl_add_eq, foldl_add_eq]
        simp only [Nat.zero_add]
        exact ⟨subsLe_total hsub, subsLe_done hsub⟩
      · have hexb : ¬ b.type = some "exercise" := hty ▸ hex
        simp only [hex, hexb, false_and, if_neg, not_false_eq_true]
        cases hqa : a.questions with
        | none =>
          cases hqb : b.questions with
          | none => simp
          | some qb => rw [hqa, hqb] at hq; simp [optQsLe] at hq
        | some qa =>
          cases hqb : b.questions with
          | none => rw [hqa, hqb] at hq; simp [optQsLe] at hq
          | some qb =>
            rw [hqa, hqb] at hq
            simp only [optQsLe] at hq
            simp [qsLe_length hq, qsLe_done hq]

theorem sectionsLe_totals {ms ns : List (String × Sect)}
    (h : sectionsLe ms ns = true) :
    ms.length = ns.length ∧
    ((ms.map (·.2)).map fun s => (sectionTotals s).1).sum =
      ((ns.map (·.2)).map fun s => (sectionTotals s).1).sum ∧
    ((ms.map (·.2)).map fun s => (sectionTotals s).2).sum ≤
      ((ns.map (·.2)).map fun s => (sectionTotals s).2).sum := by
  induction ms generalizing ns with
  | nil => cases ns with
    | nil => exact ⟨rfl, rfl, Nat.le_refl _⟩
    | cons n ns => simp [sectionsLe] at h
  | cons m ms ih =>
    cases ns with
    | nil => simp [sectionsLe] at h
    | cons n ns =>
      simp only [sectionsLe, Bool.and_eq_true] at h
      obtain ⟨h1, h2, h3⟩ := ih h.2
      obtain ⟨e1, e2⟩ := secLe_totals h.1.2
      refine ⟨by simp [h1], ?_, ?_⟩
      · simp only [List.map_cons, List.sum_cons, e1, h2]
      · simp only [List.map_cons, List.sum_cons]
        exact Nat.add_le_add e2 h3

/-! ### The aggregator against the spec's `round(100*completed/total)` -/

theorem map_congr_mem {α β : Type} {l : List α} {f g : α → β}
    (h : ∀ a ∈ l, f a = g a) : l.map f = l.map g := by
  induction l with
  | nil => rfl
  | cons a as ih =>
    simp only [List.map_cons, h a (by simp), ih fun a ha => h a (by simp [ha])]

theorem sectionTotals_eq_spec {sec : Sect}
    (hx : sec.type = some "exercise" → sec.subExercises.isSome) :
    sectionTotals sec = (specSectionTotal sec, specSectionDone sec) := by
  unfold sectionTotals specSectionTotal specSectionDone
  by_cases hty : sec.type = some "exercise"
  · have hs := hx hty
    cases hsb : sec.subExercises with
    | none => rw [hsb] at hs; cases hs
    | some subs =>
      simp [hty, foldl_add_eq]
  · simp [hty]

theorem codeTotals_eq_spec {c : Chapter}
    (hx : ∀ p ∈ c.sections, p.2.type = some "exercise" → p.2.subExercises.isSome) :
    (c.sections.map (·.2)).foldl
        (fun acc sec => (acc.1 + (sectionTotals sec).1, acc.2 + (sectionTotals sec).2))
        (0, 0) =
      (specTotalQuestions c, specCompletedQuestions c) := by
  rw [foldl_pair_eq]
  unfold specTotalQuestions specCompletedQuestions
  have h1 : ((c.sections.map (·.2)).map fun s => (sectionTotals s).1) =
      c.sections.map fun p => specSectionTotal p.2 := by
    rw [List.map_map]
    apply map_congr_mem
    intro p hp
    show (sectionTotals p.2).1 = specSectionTotal p.2
    rw [sectionTotals_eq_spec (hx p hp)]
  have h2 : ((c.sections.map (·.2)).map fun s => (sectionTotals s).2) =
      c.sections.map fun p => specSectionDone p.2 := by
    rw [List.map_map]
    apply map_congr_mem
    intro p hp
    show (sectionTotals p.2).2 = specSectionDone p.2
    rw [sectionTotals_eq_spec (hx p hp)]
  rw [h1, h2]
  simp

theorem int_floor_nat_div (a b : ℕ) (hb : b ≠ 0) :
    ⌊(a : ℚ) / (b : ℚ)⌋ = ((a / b : ℕ) : ℤ) := by
  have hbpos : 0 < b := Nat.pos_of_ne_zero hb
  rw [Int.floor_eq_iff]
  constructor
  · push_cast
    exact Nat.cast_div_le
  · have hlt : a < ((a / b : ℕ) + 1) * b := by
      have h2 := Nat.div_add_mod a b
      have h3 := Nat.mod_lt a hbpos
      have : (a / b + 1) * b = b * (a / b) + b := by ring
      omega
    rw [div_lt_iff₀ (by exact_mod_cast hbpos)]
    push_cast
    exact_mod_cast hlt

theorem nat_round_div (d T : Nat) (hT : T ≠ 0) :
    (((200 * d + T) / (2 * T) : ℕ) : ℤ) = round ((100 * d : ℚ) / (T : ℚ)) := by
  have hT' : (T : ℚ) ≠ 0 := Nat.cast_ne_zero.mpr hT
  have h2T : (2 * T : ℕ) ≠ 0 := Nat.mul_ne_zero (by norm_num) hT
  rw [round_eq]
  have heq : (100 * d : ℚ) / (T : ℚ) + 1 / 2 =
      ((200 * d + T : ℕ) : ℚ) / ((2 * T : ℕ) : ℚ) := by
    push_cast
    field_simp
    ring
  rw [heq, int_floor_nat_div _ _ h2T]

/-! ### What each kind of section contributes to the aggregator (claim C9) -/

theorem sectionTotals_congr_of (g : Sect → Sect)
    (hg : ∀ s : Sect, (g s).type = s.type ∧
      (s.type = some "exercise" → s.subExercises.isSome → (g s).subExercises = s.subExercises) ∧
      (¬ s.type = some "exercise" → (g s).questions = s.questions) ∧
      (s.type = some "exercise" → s.subExercises = none → g s = s)) :
    ∀ s, sectionTotals (g s) = sectionTotals s := by
  intro s
  obtain ⟨hty, hex, hoth, hnone⟩ := hg s
  by_cases h1 : s.type = some "exercise"
  · cases h2 : s.subExercises with
    | none => rw [hnone h1 h2]
    | some subs =>
      have hsome : s.subExercises.isSome = true := by rw [h2]; rfl
      have hgsub := hex h1 hsome
      unfold sectionTotals
      rw [hty, hgsub, h2]
      simp [h1]
  · unfold sectionTotals
    rw [hty, hoth h1]
    simp [h1]

theorem genQuestions_findChapter {t : Tree} {sId cId : String} {c : Chapter}
    (secId : String) (count : Int)
    (hc : findChapter t sId cId = some c) :
    findChapter (genQuestions t sId cId secId count) sId cId =
      some { c with
             sections := setKey c.sections secId { (getKey c.sections secId).getD {} with questions := some (mkQuestions count.toNat) },
             progress := calculateProgress { c with sections := setKey c.sections secId { (getKey c.sections secId).getD {} with questions := some (mkQuestions count.toNat) } } } := by
  have hrw := findChapter_map_ite t sId cId
    (fun c =>
      let updQs := mkQuestions count.toNat
      let newSecs := setKey c.sections secId
        { (getKey c.sections secId).getD {} with questions := some updQs }
      { c with sections := newSecs,
               progress := calculateProgress { c with sections := newSecs } })
    (fun c => rfl)
  unfold genQuestions
  rw [hrw, hc]
  rfl

theorem genQuestions_getSection {t : Tree} {sId cId secId : String} {sec : Sect}
    (count : Int) (hsec : getSection t sId cId secId = some sec) :
    getSection (genQuestions t sId cId secId count) sId cId secId =
      some { sec with questions := some (mkQuestions count.toNat) } := by
  unfold getSection at hsec ⊢
  rcases Option.bind_eq_some.mp hsec with ⟨c, hc, hkey⟩
  rw [genQuestions_findChapter secId count hc]
  simp only [Option.some_bind]
  rw [show ((getKey c.sections secId).getD {} : Sect) = sec from by rw [hkey]; rfl]
  exact getKey_setKey_self _ _ _

theorem addSubExercise_path {t t' : Tree} {sId cId secId name : String}
    {count : Int} {subId : String} {sec : Sect}
    (hsec : getSection t sId cId secId = some sec)
    (hsucc : addSubExercise t sId cId secId name count subId = some t') :
    getSection t' sId cId secId =
      some { sec with subExercises := some (setKey (sec.subExercises.getD []) subId { id := subId, name := name, questions := mkQuestions count.toNat }) } ∧
    ∀ c', findChapter t' sId cId = some c' → c'.progress = calculateProgress c' := by
  unfold addSubExercise at hsucc
  have hGc : ∀ (c c' : Chapter), (do
      let sec ← getKey c.sections secId
      let newSub : SubExercise :=
        { id := subId, name := name, questions := mkQuestions count.toNat }
      let newSubs := setKey (sec.subExercises.getD []) subId newSub
      let newSecs := setKey c.sections secId { sec with subExercises := some newSubs }
      pure { c with sections := newSecs,
                    progress := calculateProgress { c with sections := newSecs } } :
      Option Chapter) = some c' → c'.id = c.id := by
    intro c c' h
    rcases optionBind_eq_some h with ⟨s0, -, h⟩
    cases Option.some.inj h
    rfl
  have hrw := findChapter_mapOrThrow
    (fun c => do
      let sec ← getKey c.sections secId
      let newSub : SubExercise :=
        { id := subId, name := name, questions := mkQuestions count.toNat }
      let newSubs := setKey (sec.subExercises.getD []) subId newSub
      let newSecs := setKey c.sections secId { sec with subExercises := some newSubs }
      pure { c with sections := newSecs,
                    progress := calculateProgress { c with sections := newSecs } })
    hGc hsucc
  unfold getSection at hsec
  rcases Option.bind_eq_some.mp hsec with ⟨c, hc, hkey⟩
  rw [hc] at hrw
  simp only [Option.some_bind] at hrw
  rw [hkey] at hrw
  simp only [Option.bind_eq_bind, Option.some_bind] at hrw
  constructor
  · unfold getSection
    rw [hrw]
    exact getKey_setKey_self _ _ _
  · intro c' hc'
    rw [hrw] at hc'
    cases Option.some.inj hc'
    exact calculateProgress_mk _ _ _ _ _

theorem toggleQuestion_invol {t t₁ : Tree} {sId cId secId qId : String}
    {subExId : Option String}
    (hwf : WellFormed t)
    (h : toggleQuestion t sId cId secId qId subExId = some t₁) :
    toggleQuestion t₁ sId cId secId qId subExId = some t := by
  unfold toggleQuestion at h ⊢
  apply mapOrThrow_invol _ h
  intro s hs b hb
  by_cases hP : s.id = sId
  · rw [if_pos hP] at hb
    rcases optionBind_eq_some hb with ⟨chs, hchs, hpure⟩
    have hbval : b = { s with chapters := chs } := (Option.some.inj hpure).symm
    subst hbval
    rw [if_pos hP]
    have hinner : mapOrThrow
        (fun c => if c.id = cId then toggleChapter c secId qId subExId else some c)
        chs = some s.chapters := by
      apply mapOrThrow_invol _ hchs
      intro c hc b' hb'
      by_cases hQ : c.id = cId
      · rw [if_pos hQ] at hb'
        have hid : b'.id = c.id := toggleChapter_id hb'
        rw [if_pos (hid.trans hQ  : b'.id = cId)]
        rcases hwf s hs c hc with ⟨hn, hpr, hns⟩
        exact toggleChapter_invol hn hpr hns hb'
      · rw [if_neg hQ] at hb'
        cases Option.some.inj hb'
        rw [if_neg hQ]
    rw [hinner]
    rfl
  · rw [if_neg hP] at hb
    cases Option.some.inj hb
    rw [if_neg hP]

/-! ### The claims -/

/-- C1: for every chapter (of the data model's shape: exercise-kind sections
carry a sub-exercise map), `calculateProgress` returns
`round(100 * completed / total)` over all questions reached through the
chapter's sections — flattening sub-exercise question lists for
exercise-kind sections — and returns exactly 0 whenever the total is 0.
`round` is Mathlib's half-up rounding on `ℚ`, which agrees with JS
`Math.round` on non-negative values. -/
theorem claim_C1 (c : Chapter)
    (hx : ∀ p ∈ c.sections, p.2.type = some "exercise" → p.2.subExercises.isSome) :
    (calculateProgress c : ℤ) =
      if specTotalQuestions c = 0 then 0
      else round ((100 * specCompletedQuestions c : ℚ) / (specTotalQuestions c : ℚ)) := by
  have hfold := codeTotals_eq_spec hx
  by_cases h0 : specTotalQuestions c = 0
  · rw [if_pos h0]
    suffices hcp : calculateProgress c = 0 by rw [hcp]; rfl
    simp only [calculateProgress]
    rw [hfold]
    by_cases hlen : (c.sections.map (·.2)).length = 0
    · rw [if_pos hlen]
    · rw [if_neg hlen, if_pos]
      exact h0
  · rw [if_neg h0]
    have hlen : ¬ (c.sections.map (·.2)).length = 0 := by
      intro hl
      apply h0
      have hnil : c.sections = [] :=
        List.eq_nil_of_length_eq_zero (by simpa using hl)
      unfold specTotalQuestions
      rw [hnil]
      rfl
    simp only [calculateProgress]
    rw [hfold, if_neg hlen, if_neg (show ¬ ((specTotalQuestions c, specCompletedQuestions c).1 = 0) from h0)]
    exact nat_round_div _ _ h0

/-- Witness for C1 on a concrete consistent chapter. -/
theorem claim_C1_witness :
    (calculateProgress exChapter : ℤ) =
      if specTotalQuestions exChapter = 0 then 0
      else round ((100 * specCompletedQuestions exChapter : ℚ) / (specTotalQuestions exChapter : ℚ)) :=
  claim_C1 exChapter (by decide)

/-- C2 counterexample: the section built by `addChapter` for the kind
`EXERCISE` carries BOTH an (empty) direct question list and an (empty)
sub-exercise map — the source writes `questions: []` unconditionally before
spreading in `subExercises: {}` — so it is false that an exercise-kind
section carries only a sub-exercise map and no question list. -/
theorem claim_C2_cex :
    getSection (addChapter exTree0 "s1" "NewCh" ["EXERCISE"] exFresh "c9") "s1" "c9" "sec-0" =
      some (mkSection "sec-0" "EXERCISE") ∧
    (mkSection "sec-0" "EXERCISE").type = some "exercise" ∧
    (mkSection "sec-0" "EXERCISE").questions = some [] ∧
    ¬ (mkSection "sec-0" "EXERCISE").questions = none ∧
    (mkSection "sec-0" "EXERCISE").subExercises = some [] := by
  decide

/-- C2 (amended): every section created by `addChapter` is `mkSection` of
one of the requested kinds; a section of kind `EXERCISE` carries an empty
sub-exercise map AND an empty direct question list, and a section of any
other kind carries only an empty question list (no sub-exercise map). -/
theorem claim_C2_amended (kinds : List String) (fresh : Nat → String)
    (p : String × Sect) (hmem : p ∈ buildSections kinds fresh) :
    ∃ k ∈ kinds, p.2 = mkSection p.1 k ∧ p.2.questions = some [] ∧
      p.2.subExercises = (if k = "EXERCISE" then some [] else none) := by
  have main : ∀ (el : List (Nat × String)) (m : List (String × Sect)),
      (∀ q ∈ m, ∃ k, k ∈ kinds ∧ q.2 = mkSection q.1 k) →
      (∀ x ∈ el, x.2 ∈ kinds) →
      ∀ q ∈ el.foldl (fun m p => setKey m (fresh p.1) (mkSection (fresh p.1) p.2)) m,
        ∃ k, k ∈ kinds ∧ q.2 = mkSection q.1 k := by
    intro el
    induction el with
    | nil => intro m hm _ q hq; exact hm q hq
    | cons x el ih =>
      intro m hm hel q hq
      simp only [List.foldl_cons] at hq
      refine ih _ ?_ (fun x' hx' => hel x' (by simp [hx'])) q hq
      intro q' hq'
      rcases mem_setKey hq' with h | h
      · exact hm q' h
      · exact ⟨x.2, hel x (by simp), by rw [h]⟩
  have henum : ∀ x ∈ kinds.enum, x.2 ∈ kinds := by
    intro x hx
    exact List.getElem?_mem (List.mem_enum_iff_getElem?.mp hx)
  obtain ⟨k, hk, heq⟩ := main kinds.enum [] (by intro q hq; cases hq) henum p hmem
  exact ⟨k, hk, heq, by rw [heq]; rfl, by rw [heq]; rfl⟩

/-- Witness for the amended C2 at a concrete `addChapter` section map. -/
theorem claim_C2_amended_witness :
    ∃ k ∈ ["EXERCISE", "PYQS"],
      (("sec-0", mkSection "sec-0" "EXERCISE") : String × Sect).2 = mkSection "sec-0" k ∧
      (("sec-0", mkSection "sec-0" "EXERCISE") : String × Sect).2.questions = some [] ∧
      (("sec-0", mkSection "sec-0" "EXERCISE") : String × Sect).2.subExercises =
        (if k = "EXERCISE" then some [] else none) :=
  claim_C2_amended ["EXERCISE", "PYQS"] exFresh ("sec-0", mkSection "sec-0" "EXERCISE")
    (by decide)

/-- C3 counterexample: with a missing section id, `toggleQuestion` throws
(`none`, the `TypeError` of `sec.questions.map` on `undefined`) instead of
returning the tree unchanged, and `genQuestions` silently inserts a fresh
partial section instead of leaving the tree unchanged. -/
theorem claim_C3_cex :
    toggleQuestion exTree "s1" "c1" "nosec" "q-1" none = none ∧
    ¬ genQuestions exTree "s1" "c1" "nosec" 2 = exTree := by
  decide

/-- C3 (amended): when the subject id is missing — or the chapter id is
missing under every subject — every mutation operation returns the tree
unchanged and never throws.  (The original claim fails only for
missing SECTION or sub-exercise ids, where `toggleQuestion` and
`addSubExercise` throw and `genQuestions` inserts a partial section.) -/
theorem claim_C3_amended (t : Tree)
    (sId cId secId qId name label chId newSecId subId : String)
    (subExId : Option String) (n : Int) (kinds : List String) (fresh : Nat → String)
    (h : (∀ s ∈ t, ¬ s.id = sId) ∨ (∀ s ∈ t, ∀ c ∈ s.chapters, ¬ c.id = cId)) :
    toggleQuestion t sId cId secId qId subExId = some t ∧
    genQuestions t sId cId secId n = t ∧
    addSubExercise t sId cId secId name n subId = some t ∧
    addGenericSection t sId cId label newSecId = t ∧
    deleteChapter t sId cId = t ∧
    ((∀ s ∈ t, ¬ s.id = sId) → addChapter t sId name kinds fresh chId = t) := by
  refine ⟨?_, ?_, ?_, ?_, ?_, ?_⟩
  · unfold toggleQuestion
    apply mapOrThrow_congr_id
    intro s hs
    rcases h with hs' | hc'
    · rw [if_neg (hs' s hs)]
    · by_cases hP : s.id = sId
      · rw [if_pos hP,
          mapOrThrow_congr_id (fun c hc => by rw [if_neg (hc' s hs c hc)])]
        rfl
      · rw [if_neg hP]
  · unfold genQuestions
    apply map_congr_id
    intro s hs
    rcases h with hs' | hc'
    · rw [if_neg (hs' s hs)]
    · by_cases hP : s.id = sId
      · rw [if_pos hP, map_congr_id (fun c hc => by rw [if_neg (hc' s hs c hc)])]
      · rw [if_neg hP]
  · unfold addSubExercise
    apply mapOrThrow_congr_id
    intro s hs
    rcases h with hs' | hc'
    · rw [if_neg (hs' s hs)]
    · by_cases hP : s.id = sId
      · rw [if_pos hP,
          mapOrThrow_congr_id (fun c hc => by rw [if_neg (hc' s hs c hc)])]
        rfl
      · rw [if_neg hP]
  · unfold addGenericSection
    apply map_congr_id
    intro s hs
    rcases h with hs' | hc'
    · rw [if_neg (hs' s hs)]
    · by_cases hP : s.id = sId
      · rw [if_pos hP, map_congr_id (fun c hc => by rw [if_neg (hc' s hs c hc)])]
      · rw [if_neg hP]
  · unfold deleteChapter
    apply map_congr_id
    intro s hs
    rcases h with hs' | hc'
    · rw [if_neg (hs' s hs)]
    · by_cases hP : s.id = sId
      · rw [if_pos hP,
          filter_congr_true (fun c hc => decide_eq_true (hc' s hs c hc))]
      · rw [if_neg hP]
  · intro hs'
    unfold addChapter
    apply map_congr_id
    intro s hs
    rw [if_neg (hs' s hs)]

/-- Witness for the amended C3: ids absent from the concrete tree. -/
theorem claim_C3_witness :
    toggleQuestion exTree "zz" "yy" "se2" "q-1" none = some exTree ∧
    genQuestions exTree "zz" "yy" "se2" 3 = exTree ∧
    addSubExercise exTree "zz" "yy" "se2" "N" 3 "sub9" = some exTree ∧
    addGenericSection exTree "zz" "yy" "LBL" "sec9" = exTree ∧
    deleteChapter exTree "zz" "yy" = exTree ∧
    ((∀ s ∈ exTree, ¬ s.id = "zz") →
      addChapter exTree "zz" "NewCh" ["EXERCISE"] exFresh "c9" = exTree) :=
  claim_C3_amended exTree "zz" "yy" "se2" "q-1" "N" "LBL" "c9" "sec9" "sub9"
    none 3 ["EXERCISE"] exFresh (Or.inl (by decide))

/-- C4 counterexample: the `toggleQuestion` handler's effect trace is
exactly one remote write and contains NO in-memory tree update at all —
the source never calls `setSubjects` in the mutation path, so the new tree
is not visible in the in-memory tree before the write is dispatched. -/
theorem claim_C4_cex :
    toggleQuestionHandler (some { uid := "u1" }) exTree "s1" "c1" "se2" "q-1" none =
      some [SyncAction.writeDoc "u1" exTreeT] ∧
    ∀ x : Tree, SyncAction.setTree x ∉ [SyncAction.writeDoc "u1" exTreeT] := by
  constructor
  · decide
  · intro x hx
    simp at hx

/-- C4 (amended): a locally issued mutation dispatches the full-document
write of the new tree WITHOUT first updating the in-memory tree; the
in-memory tree changes only when the snapshot listener delivers the
document back (`setTree`). -/
theorem claim_C4_amended (u : UserInfo) (t t' : Tree)
    (sId cId secId qId : String) (subExId : Option String)
    (h : toggleQuestion t sId cId secId qId subExId = some t') :
    toggleQuestionHandler (some u) t sId cId secId qId subExId =
      some [SyncAction.writeDoc u.uid t'] ∧
    (∀ x : Tree, SyncAction.setTree x ∉ [SyncAction.writeDoc u.uid t']) ∧
    onSnapshotHandler (some (some t')) = [SyncAction.setTree t'] := by
  refine ⟨?_, ?_, rfl⟩
  · unfold toggleQuestionHandler
    rw [h]
    rfl
  · intro x hx
    simp at hx

/-- Witness for the amended C4 at a concrete toggle. -/
theorem claim_C4_amended_witness :
    toggleQuestionHandler (some { uid := "u1" }) exTree "s1" "c1" "se2" "q-1" none =
      some [SyncAction.writeDoc "u1" exTreeT] ∧
    (∀ x : Tree, SyncAction.setTree x ∉ [SyncAction.writeDoc "u1" exTreeT]) ∧
    onSnapshotHandler (some (some exTreeT)) = [SyncAction.setTree exTreeT] :=
  claim_C4_amended { uid := "u1" } exTree exTreeT "s1" "c1" "se2" "q-1" none (by decide)

/-- C5: on a well-formed tree (JS-object maps have distinct keys and every
chapter's cached progress is the aggregator's value — the invariant the app
maintains) containing the addressed question, toggling the same question
twice restores the question's `completed` flag and the enclosing chapter's
`progress` to their original values. -/
theorem claim_C5 (t t₁ t₂ : Tree) (sId cId secId qId : String)
    (subExId : Option String)
    (hwf : WellFormed t)
    (_hq : (getQuestionFlag t sId cId secId subExId qId).isSome)
    (h1 : toggleQuestion t sId cId secId qId subExId = some t₁)
    (h2 : toggleQuestion t₁ sId cId secId qId subExId = some t₂) :
    getQuestionFlag t₂ sId cId secId subExId qId =
      getQuestionFlag t sId cId secId subExId qId ∧
    (findChapter t₂ sId cId).map (·.progress) =
      (findChapter t sId cId).map (·.progress) := by
  have hinv := toggleQuestion_invol hwf h1
  rw [h2] at hinv
  cases Option.some.inj hinv
  exact ⟨rfl, rfl⟩

/-- Witness for C5: a concrete double toggle through `exTree`. -/
theorem claim_C5_witness :
    getQuestionFlag exTree "s1" "c1" "se2" none "q-1" =
      getQuestionFlag exTree "s1" "c1" "se2" none "q-1" ∧
    (findChapter exTree "s1" "c1").map (·.progress) =
      (findChapter exTree "s1" "c1").map (·.progress) :=
  claim_C5 exTree exTreeT exTree "s1" "c1" "se2" "q-1" none
    (by unfold WellFormed keysNodup; decide) (by decide) (by decide) (by decide)

/-- C6: for every tree containing the addressed section, `genQuestions`
with count 5 replaces that section's question list wholesale with exactly
the five incomplete questions `q-1 … q-5` (prior questions and completion
state discarded), and count 0 yields the empty question list (reset). -/
theorem claim_C6 (t : Tree) (sId cId secId : String) (sec : Sect)
    (hsec : getSection t sId cId secId = some sec) :
    getSection (genQuestions t sId cId secId 5) sId cId secId =
      some { sec with questions := some specFiveQuestions } ∧
    getSection (genQuestions t sId cId secId 0) sId cId secId =
      some { sec with questions := some [] } := by
  constructor
  · rw [genQuestions_getSection 5 hsec,
      show mkQuestions (5 : Int).toNat = specFiveQuestions from by decide]
  · rw [genQuestions_getSection 0 hsec]
    rfl

/-- Witness for C6 at the concrete custom section of `exTree`. -/
theorem claim_C6_witness :
    getSection (genQuestions exTree "s1" "c1" "se2" 5) "s1" "c1" "se2" =
      some { exSecCustom with questions := some specFiveQuestions } ∧
    getSection (genQuestions exTree "s1" "c1" "se2" 0) "s1" "c1" "se2" =
      some { exSecCustom with questions := some [] } :=
  claim_C6 exTree "s1" "c1" "se2" exSecCustom (by decide)

/-- C7 counterexample: `addSubExercise` happily adds a sub-exercise to a
section whose type is `custom` (not exercise-kind) — the source never
checks the section's type; the exercise-kind restriction exists only in
the UI, which shows the add-subset control only on exercise sections. -/
theorem claim_C7_cex :
    exSecCustom.type = some "custom" ∧
    (addSubExercise exTree "s1" "c1" "se2" "X" 2 "subX").bind
        (fun t => getSection t "s1" "c1" "se2") =
      some { exSecCustom with
             subExercises := some
               [("subX", { id := "subX", name := "X", questions := mkQuestions 2 })] } := by
  decide

/-- C7 (amended): for every tree containing the addressed section — of ANY
kind, not only exercise-kind — `addSubExercise` adds one new sub-exercise
with the supplied fresh id and `count` fresh incomplete questions and
recomputes the chapter's progress. -/
theorem claim_C7_amended (t t' : Tree) (sId cId secId name : String)
    (count : Int) (subId : String) (sec : Sect)
    (hsec : getSection t sId cId secId = some sec)
    (hsucc : addSubExercise t sId cId secId name count subId = some t') :
    getSection t' sId cId secId =
      some { sec with subExercises := some (setKey (sec.subExercises.getD []) subId { id := subId, name := name, questions := mkQuestions count.toNat }) } ∧
    (mkQuestions count.toNat).length = count.toNat ∧
    (∀ q ∈ mkQuestions count.toNat, q.completed = false) ∧
    (∀ c', findChapter t' sId cId = some c' → c'.progress = calculateProgress c') := by
  obtain ⟨hget, hprog⟩ := addSubExercise_path hsec hsucc
  refine ⟨hget, by simp [mkQuestions], ?_, hprog⟩
  intro q hq
  unfold mkQuestions at hq
  rcases List.mem_map.mp hq with ⟨i, -, hqe⟩
  rw [← hqe]

/-- Witness for the amended C7 at a concrete `addSubExercise`. -/
theorem claim_C7_amended_witness :
    getSection exTree7 "s1" "c1" "se2" =
      some { exSecCustom with subExercises := some (setKey (exSecCustom.subExercises.getD []) "subX" { id := "subX", name := "X", questions := mkQuestions (2 : Int).toNat }) } ∧
    (mkQuestions (2 : Int).toNat).length = (2 : Int).toNat ∧
    (∀ q ∈ mkQuestions (2 : Int).toNat, q.completed = false) ∧
    (∀ c', findChapter exTree7 "s1" "c1" = some c' →
      c'.progress = calculateProgress c') :=
  claim_C7_amended exTree exTree7 "s1" "c1" "se2" "X" 2 "subX" exSecCustom
    (by decide) (by decide)

/-- C8: completing more questions without changing the totals can only
raise the chapter's progress: if `c₂` is `c₁` with some completed flags
turned from false to true (same sections, same question lists), then
`calculateProgress c₁ ≤ calculateProgress c₂`. -/
theorem claim_C8 (c₁ c₂ : Chapter) (h : chapterLe c₁ c₂ = true) :
    calculateProgress c₁ ≤ calculateProgress c₂ := by
  simp only [chapterLe, Bool.and_eq_true] at h
  obtain ⟨len_eq, tot_eq, done_le⟩ := sectionsLe_totals h.2
  simp only [calculateProgress]
  rw [foldl_pair_eq, foldl_pair_eq]
  simp only [Nat.zero_add]
  have hlen : (c₁.sections.map (·.2)).length = (c₂.sections.map (·.2)).length := by
    simp [len_eq]
  rw [tot_eq, hlen]
  by_cases hl : (c₂.sections.map (·.2)).length = 0
  · rw [if_pos hl, if_pos hl]
  · rw [if_neg hl, if_neg hl]
    by_cases h0 : ((c₂.sections.map (·.2)).map fun s => (sectionTotals s).1).sum = 0
    · rw [if_pos h0, if_pos h0]
    · rw [if_neg h0, if_neg h0]
      apply Nat.div_le_div_right
      have := Nat.mul_le_mul_left 200 done_le
      omega

/-- Witness for C8: `exChapterHi` is `exChapter` with one more completed
question; progress goes from 0 to 17. -/
theorem claim_C8_witness : calculateProgress exChapter ≤ calculateProgress exChapterHi :=
  claim_C8 exChapter exChapterHi (by decide)

/-- C9: `calculateProgress` counts, for an exercise-typed section carrying
a sub-exercise map, only the map's questions (any direct question list is
ignored), and for any other section only the direct question list (any
sub-exercise map is ignored): rewriting sections in a way that only touches
those ignored fields leaves the chapter's progress unchanged. -/
theorem claim_C9 (c : Chapter) (g : Sect → Sect)
    (hg : ∀ s : Sect, (g s).type = s.type ∧
      (s.type = some "exercise" → s.subExercises.isSome → (g s).subExercises = s.subExercises) ∧
      (¬ s.type = some "exercise" → (g s).questions = s.questions) ∧
      (s.type = some "exercise" → s.subExercises = none → g s = s)) :
    calculateProgress { c with sections := c.sections.map fun p => (p.1, g p.2) } =
      calculateProgress c := by
  have hsec := sectionTotals_congr_of g hg
  simp only [calculateProgress]
  have hmap : ((c.sections.map fun p => (p.1, g p.2)).map (·.2)) =
      (c.sections.map (·.2)).map g := by
    rw [List.map_map, List.map_map]
    rfl
  rw [hmap]
  have h1 : (((c.sections.map (·.2)).map g).map fun s => (sectionTotals s).1) =
      ((c.sections.map (·.2)).map fun s => (sectionTotals s).1) := by
    rw [List.map_map]
    apply map_congr_mem
    intro s _
    show (sectionTotals (g s)).1 = (sectionTotals s).1
    rw [hsec s]
  have h2 : (((c.sections.map (·.2)).map g).map fun s => (sectionTotals s).2) =
      ((c.sections.map (·.2)).map fun s => (sectionTotals s).2) := by
    rw [List.map_map]
    apply map_congr_mem
    intro s _
    show (sectionTotals (g s)).2 = (sectionTotals s).2
    rw [hsec s]
  rw [foldl_pair_eq, foldl_pair_eq, h1, h2, List.length_map]

/-- Witness for C9: `exG` drops exactly the ignored fields on `exChapter`. -/
theorem claim_C9_witness :
    calculateProgress
        { exChapter with sections := exChapter.sections.map fun p => (p.1, exG p.2) } =
      calculateProgress exChapter :=
  claim_C9 exChapter exG (by
    intro s
    by_cases h1 : s.type = some "exercise" <;> by_cases h2 : s.subExercises.isSome <;>
      refine ⟨?_, ?_, ?_, ?_⟩ <;> simp_all [exG])

/-- C10: for every tree containing the addressed section and every
count ≤ 0, `genQuestions` behaves exactly like the designated count = 0
reset — `Array.from({length: n})` of a non-positive length is empty — so
the section's question list becomes empty and the chapter's progress is
recomputed. -/
theorem claim_C10 (t : Tree) (sId cId secId : String) (sec : Sect) (n : Int)
    (hn : n ≤ 0) (hsec : getSection t sId cId secId = some sec) :
    genQuestions t sId cId secId n = genQuestions t sId cId secId 0 ∧
    getSection (genQuestions t sId cId secId n) sId cId secId =
      some { sec with questions := some [] } ∧
    (∀ c', findChapter (genQuestions t sId cId secId n) sId cId = some c' →
      c'.progress = calculateProgress c') := by
  have htn : n.toNat = (0 : Int).toNat := by
    rw [Int.toNat_of_nonpos hn]
    rfl
  have heq : genQuestions t sId cId secId n = genQuestions t sId cId secId 0 := by
    unfold genQuestions
    simp only [htn]
  refine ⟨heq, ?_, ?_⟩
  · rw [genQuestions_getSection n hsec,
      show mkQuestions n.toNat = [] from by rw [htn]; rfl]
  · intro c' hc'
    unfold getSection at hsec
    rcases Option.bind_eq_some.mp hsec with ⟨c, hc, -⟩
    rw [genQuestions_findChapter secId n hc] at hc'
    cases Option.some.inj hc'
    exact calculateProgress_mk _ _ _ _ _

/-- Witness for C10 at a negative count on the concrete tree. -/
theorem claim_C10_witness :
    genQuestions exTree "s1" "c1" "se2" (-3) = genQuestions exTree "s1" "c1" "se2" 0 ∧
    getSection (genQuestions exTree "s1" "c1" "se2" (-3)) "s1" "c1" "se2" =
      some { exSecCustom with questions := some [] } ∧
    (∀ c', findChapter (genQuestions exTree "s1" "c1" "se2" (-3)) "s1" "c1" = some c' →
      c'.progress = calculateProgress c') :=
  claim_C10 exTree "s1" "c1" "se2" exSecCustom (-3) (by norm_num) (by decide)

end StudyTracker
